import Mathlib

/-!
Verification development for the Milvus vector-database client
(`src/client/database/milvus/milvus_client.py`).

The client is shallowly embedded: the external Milvus server is modelled as
a map from collection names to collection data (schema, index parameters,
rows, loaded flag); Python exceptions become `Except String`; Python floats
become rationals (`ℚ`); the `json` library calls used for the `headers`
field are modelled by an executable serializer and parser for JSON objects
whose keys and values are strings (escaping of control and non-ASCII
characters, which the client never relies on, is modelled as the identity).
-/

namespace Milvus

/-- Character constant: the double-quote character. -/
def qc : Char := Char.ofNat 34

/-- Character constant: the backslash character. -/
def bsc : Char := Char.ofNat 92

/-- Character constant: the opening curly brace. -/
def lbr : Char := Char.ofNat 123

/-- Character constant: the closing curly brace. -/
def rbr : Char := Char.ofNat 125

/-- Character constant: the single-quote character. -/
def sq : Char := Char.ofNat 39

/-- Model of the JSON string escaping done by `json.dumps`: quote and
backslash are escaped with a backslash; every other character is kept
as-is. -/
def escChar (c : Char) : List Char :=
  if c = qc ∨ c = bsc then [bsc, c] else [c]

/-- Escape a whole string (as a character list). -/
def escList (s : List Char) : List Char :=
  (s.map escChar).flatten

/-- Serialized form of one `"key": "value"` member of a JSON object, using
the default `json.dumps` separators. -/
def dumpPair (p : List Char × List Char) : List Char :=
  qc :: (escList p.1 ++ qc :: ':' :: ' ' :: qc :: (escList p.2 ++ [qc]))

/-- Serialized members of a JSON object, joined by `", "`. -/
def dumpMembers : List (List Char × List Char) → List Char
  | [] => []
  | [p] => dumpPair p
  | p :: q :: rest => dumpPair p ++ ',' :: ' ' :: dumpMembers (q :: rest)

/-- Serialized JSON object: members wrapped in curly braces. -/
def dumpObj (m : List (List Char × List Char)) : List Char :=
  lbr :: (dumpMembers m ++ [rbr])

/-- Model of `json.dumps` on a string-to-string map (the shape the client
stores in the `headers` column). -/
def jsonDumps (m : List (String × String)) : String :=
  String.mk (dumpObj (m.map fun p => (p.1.data, p.2.data)))

/-- Parse the body of a JSON string literal (after the opening quote),
returning the unescaped content and the remainder after the closing
quote. -/
def parseStrBody : List Char → Option (List Char × List Char)
  | [] => none
  | c :: rest =>
    if c = qc then some ([], rest)
    else if c = bsc then
      match rest with
      | [] => none
      | e :: rest2 =>
        if e = qc ∨ e = bsc then
          (parseStrBody rest2).map fun p => (e :: p.1, p.2)
        else none
    else (parseStrBody rest).map fun p => (c :: p.1, p.2)

/-- Parse one or more `"key": "value"` members followed by a closing brace;
`fuel` bounds the number of members. Returns the members and the remainder
after the closing brace. -/
def parseMembers : Nat → List Char → Option (List (List Char × List Char) × List Char)
  | 0, _ => none
  | fuel + 1, l =>
    match l with
    | c :: rest =>
      if c = qc then
        match parseStrBody rest with
        | none => none
        | some (k, rest1) =>
          match rest1 with
          | ':' :: ' ' :: c2 :: rest2 =>
            if c2 = qc then
              match parseStrBody rest2 with
              | none => none
              | some (v, rest3) =>
                match rest3 with
                | c3 :: rest4 =>
                  if c3 = rbr then some ([(k, v)], rest4)
                  else if c3 = ',' then
                    match rest4 with
                    | ' ' :: rest5 =>
                      match parseMembers fuel rest5 with
                      | none => none
                      | some (ms, rest6) => some ((k, v) :: ms, rest6)
                    | _ => none
                  else none
                | [] => none
            else none
          | _ => none
      else none
    | [] => none

/-- Parse a JSON object from a character list, returning members and the
remaining characters. -/
def parseObj (l : List Char) : Option (List (List Char × List Char) × List Char) :=
  match l with
  | c :: rest =>
    if c = lbr then
      match rest with
      | c2 :: rest2 => if c2 = rbr then some ([], rest2) else parseMembers rest.length rest
      | [] => none
    else none
  | [] => none

/-- Model of `json.loads` restricted to objects with string keys and string
values: succeeds exactly when the whole input is one such object. -/
def jsonLoads (s : String) : Option (List (String × String)) :=
  match parseObj s.data with
  | some (ms, []) => some (ms.map fun p => (String.mk p.1, String.mk p.2))
  | _ => none

theorem parseStrBody_quote (r : List Char) : parseStrBody (qc :: r) = some ([], r) := by
  rw [parseStrBody.eq_def]
  simp

theorem parseStrBody_escaped (e : Char) (r : List Char) (he : e = qc ∨ e = bsc) :
    parseStrBody (bsc :: e :: r) = (parseStrBody r).map fun p => (e :: p.1, p.2) := by
  rw [parseStrBody.eq_def]
  have hbs : ¬ (bsc = qc) := by decide
  simp [hbs, he]

theorem parseStrBody_other (c : Char) (r : List Char) (h1 : ¬ c = qc) (h2 : ¬ c = bsc) :
    parseStrBody (c :: r) = (parseStrBody r).map fun p => (c :: p.1, p.2) := by
  rw [parseStrBody.eq_def]
  simp [h1, h2]

theorem escList_cons (c : Char) (cs : List Char) :
    escList (c :: cs) = escChar c ++ escList cs := by
  simp [escList]

theorem parseStrBody_escList (s : List Char) (r : List Char) :
    parseStrBody (escList s ++ qc :: r) = some (s, r) := by
  induction s with
  | nil =>
    rw [show escList [] = [] from rfl, List.nil_append]
    exact parseStrBody_quote r
  | cons c cs ih =>
    rw [escList_cons]
    by_cases hc : c = qc ∨ c = bsc
    · rw [show escChar c = [bsc, c] from by simp [escChar, hc]]
      simp only [List.cons_append, List.nil_append, List.append_assoc]
      rw [parseStrBody_escaped c _ hc, ih]
      rfl
    · push_neg at hc
      rw [show escChar c = [c] from by simp [escChar, hc.1, hc.2]]
      simp only [List.cons_append, List.nil_append, List.append_assoc]
      rw [parseStrBody_other c _ hc.1 hc.2, ih]
      rfl

theorem parseMembers_last (f : Nat) (k v : List Char) (r : List Char) :
    parseMembers (f + 1)
      (qc :: (escList k ++ qc :: ':' :: ' ' :: qc :: (escList v ++ qc :: rbr :: r)))
      = some ([(k, v)], r) := by
  rw [parseMembers.eq_def]
  simp [parseStrBody_escList]

theorem parseMembers_more (f : Nat) (k v : List Char) (rest5 : List Char) :
    parseMembers (f + 1)
      (qc :: (escList k ++ qc :: ':' :: ' ' :: qc :: (escList v ++ qc :: ',' :: ' ' :: rest5)))
      = match parseMembers f rest5 with
        | none => none
        | some (ms, rest6) => some ((k, v) :: ms, rest6) := by
  rw [parseMembers.eq_def]
  have h1 : ¬ ((',' : Char) = rbr) := by decide
  simp [parseStrBody_escList, h1]

theorem parseMembers_dumpMembers (m : List (List Char × List Char))
    (p : List Char × List Char) (r : List Char) (fuel : Nat) (hf : m.length < fuel) :
    parseMembers fuel (dumpMembers (p :: m) ++ rbr :: r) = some (p :: m, r) := by
  induction m generalizing p r fuel with
  | nil =>
    obtain ⟨f, rfl⟩ : ∃ f, fuel = f + 1 := ⟨fuel - 1, by omega⟩
    show parseMembers (f + 1) (dumpPair p ++ rbr :: r) = some ([p], r)
    rw [show dumpPair p ++ rbr :: r
        = qc :: (escList p.1 ++ qc :: ':' :: ' ' :: qc :: (escList p.2 ++ qc :: rbr :: r)) from by
      simp [dumpPair, List.append_assoc]]
    exact parseMembers_last f p.1 p.2 r
  | cons q m ih =>
    obtain ⟨f, rfl⟩ : ∃ f, fuel = f + 1 := ⟨fuel - 1, by omega⟩
    show parseMembers (f + 1) ((dumpPair p ++ ',' :: ' ' :: dumpMembers (q :: m)) ++ rbr :: r)
        = some (p :: q :: m, r)
    rw [show (dumpPair p ++ ',' :: ' ' :: dumpMembers (q :: m)) ++ rbr :: r
        = qc :: (escList p.1 ++ qc :: ':' :: ' ' :: qc ::
            (escList p.2 ++ qc :: ',' :: ' ' :: (dumpMembers (q :: m) ++ rbr :: r))) from by
      simp [dumpPair, List.append_assoc]]
    rw [parseMembers_more f p.1 p.2 (dumpMembers (q :: m) ++ rbr :: r)]
    rw [ih q r f (by simpa using hf)]

theorem length_le_dumpMembers (m : List (List Char × List Char)) :
    m.length ≤ (dumpMembers m).length := by
  induction m with
  | nil => simp [dumpMembers]
  | cons p m ih =>
    cases m with
    | nil => simp [dumpMembers, dumpPair]
    | cons q rest =>
      have : dumpMembers (p :: q :: rest) = dumpPair p ++ ',' :: ' ' :: dumpMembers (q :: rest) :=
        rfl
      rw [this]
      have hp : 1 ≤ (dumpPair p).length := by simp [dumpPair]
      simp only [List.length_append, List.length_cons]
      have := ih
      simp only [List.length_cons] at this ⊢
      omega

theorem dumpMembers_cons_head (p : List Char × List Char) (m : List (List Char × List Char)) :
    ∃ t, dumpMembers (p :: m) = qc :: t := by
  cases m with
  | nil => exact ⟨_, rfl⟩
  | cons q rest => exact ⟨_, rfl⟩

theorem jsonLoads_jsonDumps (m : List (String × String)) : jsonLoads (jsonDumps m) = some m := by
  cases m with
  | nil => decide
  | cons p m' =>
    show jsonLoads (String.mk (dumpObj ((p :: m').map fun x => (x.1.data, x.2.data)))) = _
    unfold jsonLoads
    rw [show (String.mk (dumpObj ((p :: m').map fun x => (x.1.data, x.2.data)))).data
        = dumpObj ((p :: m').map fun x => (x.1.data, x.2.data)) from rfl]
    set pc := (p.1.data, p.2.data) with hpc
    set mc := m'.map fun x => (x.1.data, x.2.data) with hmc
    have hmap : (p :: m').map (fun x => (x.1.data, x.2.data)) = pc :: mc := rfl
    rw [hmap]
    obtain ⟨t, ht⟩ := dumpMembers_cons_head pc mc
    have hobj : dumpObj (pc :: mc) = lbr :: (dumpMembers (pc :: mc) ++ [rbr]) := rfl
    rw [hobj]
    unfold parseObj
    have hqr : ¬ (qc = rbr) := by decide
    rw [ht]
    simp only [List.cons_append, if_pos rfl, if_neg hqr, if_true]
    have hrw : qc :: (t ++ [rbr]) = dumpMembers (pc :: mc) ++ [rbr] := by
      rw [ht, List.cons_append]
    rw [hrw]
    have hlen : mc.length < (dumpMembers (pc :: mc) ++ [rbr]).length := by
      have h1 := length_le_dumpMembers (pc :: mc)
      simp only [List.length_cons] at h1
      simp only [List.length_append, List.length_cons, List.length_nil]
      omega
    have := parseMembers_dumpMembers mc pc [] ((dumpMembers (pc :: mc) ++ [rbr]).length) hlen
    rw [show dumpMembers (pc :: mc) ++ rbr :: ([] : List Char) = dumpMembers (pc :: mc) ++ [rbr]
      from rfl] at this
    rw [this]
    simp only [hpc, hmc, List.map_cons, List.map_map]
    have hid : ((fun q : List Char × List Char => (String.mk q.1, String.mk q.2)) ∘
        fun x : String × String => (x.1.data, x.2.data)) = id := by
      funext x
      rfl
    rw [hid, List.map_id]

/-- Milvus field data types used by the client's schema. -/
inductive DataType
  | INT64
  | VARCHAR
  | FLOAT_VECTOR
deriving DecidableEq

/-- Model of `pymilvus.FieldSchema` restricted to the keyword arguments the
client passes: name, dtype, is_primary, auto_id, max_length, dim. -/
structure FieldSchema where
  name : String
  dtype : DataType
  is_primary : Bool
  auto_id : Bool
  max_length : Option Nat
  dim : Option Nat
deriving DecidableEq

/-- The fixed schema declared by `MilvusClient.fields`, in source order. -/
def fields : List FieldSchema :=
  [⟨"id", DataType.INT64, true, true, none, none⟩,
   ⟨"user_id", DataType.VARCHAR, false, false, some 64, none⟩,
   ⟨"kb_id", DataType.VARCHAR, false, false, some 64, none⟩,
   ⟨"file_id", DataType.VARCHAR, false, false, some 64, none⟩,
   ⟨"headers", DataType.VARCHAR, false, false, some 256, none⟩,
   ⟨"doc_id", DataType.VARCHAR, false, false, some 64, none⟩,
   ⟨"content", DataType.VARCHAR, false, false, some 4000, none⟩,
   ⟨"embedding", DataType.FLOAT_VECTOR, false, false, none, some 768⟩]

/-- The output field list declared by `MilvusClient.output_fields`. -/
def output_fields : List String :=
  ["id", "user_id", "kb_id", "file_id", "headers", "doc_id", "content", "embedding"]

/-- Index-creation parameters (`MilvusClient.create_params`). -/
structure IndexParams where
  metric_type : String
  index_type : String
  nlist : Nat
deriving DecidableEq

/-- The client's fixed `create_params`: metric L2, index IVF_FLAT, nlist 1024. -/
def create_params : IndexParams := ⟨"L2", "IVF_FLAT", 1024⟩

/-- Search-time parameters (`MilvusClient.search_params`). -/
structure SearchParams where
  metric_type : String
  nprobe : Nat
deriving DecidableEq

/-- The client's fixed `search_params`: metric L2, nprobe 128. -/
def search_params : SearchParams := ⟨"L2", 128⟩

/-- A stored row of the collection, one value per non-auto schema field
(the auto-generated `id` primary key is assigned by the store and is not
part of the payload the client handles). `headers` is the serialized
string form. Float values are modelled as rationals. -/
structure DocumentRow where
  user_id : String
  kb_id : String
  file_id : String
  headers : String
  doc_id : String
  content : String
  embedding : List ℚ
deriving DecidableEq

/-- Server-side state of one named collection: its schema, the index built
on the embedding field (if any), the stored rows, and whether the
collection has been loaded into a queryable state. -/
structure CollectionData where
  schema : List FieldSchema
  index : Option (String × IndexParams)
  rows : List DocumentRow
  loaded : Bool
deriving DecidableEq

/-- Combined state of the modelled Milvus server (collections by name) and
the client (`self.sess`, the name of the active collection handle, `None`
until `load_collection_` succeeds). -/
structure ClientState where
  collections : List (String × CollectionData)
  sess : Option String
deriving DecidableEq

/-- Model of the langchain `Document` input as the client reads it:
`page_content` plus the metadata keys it accesses via `metadata.get`
(absent keys yield `none`). The `headers` metadata value is a structured
string-to-string map. -/
structure Document where
  page_content : String
  user_id : Option String
  kb_id : Option String
  file_id : Option String
  doc_id : Option String
  headers : Option (List (String × String))

/-- A record as returned by `search_docs`: all seven non-auto fields, with
`headers` deserialized back into a structured map. -/
structure RetrievedDoc where
  user_id : String
  kb_id : String
  file_id : String
  headers : List (String × String)
  doc_id : String
  content : String
  embedding : List ℚ
deriving DecidableEq

/-- A single cell of the column-major insert payload `data`. -/
inductive ColValue
  | str (s : String)
  | vec (v : List ℚ)
deriving DecidableEq

/-- Model of `pymilvus.utility.has_collection` plus `Collection(name)`:
look a collection up by name. -/
def lookupCollection : List (String × CollectionData) → String → Option CollectionData
  | [], _ => none
  | (n, c) :: rest, name => if n = name then some c else lookupCollection rest name

/-- Replace the entry for `name` (no-op when absent). -/
def updateCollection : List (String × CollectionData) → String → CollectionData →
    List (String × CollectionData)
  | [], _, _ => []
  | (n, c) :: rest, name, c2 =>
    if n = name then (n, c2) :: rest else (n, c) :: updateCollection rest name c2

/-- Model of `collection.create_index(field_name, index_params)`. -/
def CollectionData.create_index (c : CollectionData) (field_name : String)
    (ip : IndexParams) : CollectionData :=
  { c with index := some (field_name, ip) }

/-- Model of `collection.load()`: the collection becomes queryable. -/
def CollectionData.load (c : CollectionData) : CollectionData :=
  { c with loaded := true }

/-- Model of `MilvusClient.load_collection_`: create the collection with
the fixed schema and index when the name is new, attach as-is otherwise;
in both cases load it and make it the active session collection. -/
def load_collection_ (st : ClientState) (user_id : String) : ClientState :=
  match lookupCollection st.collections user_id with
  | none =>
    let c : CollectionData := { schema := fields, index := none, rows := [], loaded := false }
    let c := c.create_index "embedding" create_params
    let c := c.load
    { collections := (user_id, c) :: st.collections, sess := some user_id }
  | some c =>
    let c := c.load
    { collections := updateCollection st.collections user_id c, sess := some user_id }

/-- Python truthiness of an optional string (`None` and `""` are falsy). -/
def truthyO : Option String → Bool
  | none => false
  | some s => !s.isEmpty

/-- Message of the not-loaded guard in `store_doc` and `search_docs`. -/
def notLoadedMsg : String := "Milvus collection is not loaded. Call load_collection_() first."

/-- Message of the validation guard in `store_doc`. -/
def missingFieldsMsg : String := "Missing required fields in document metadata or embedding."

/-- The column-major insert payload `data` assembled by `store_doc`: one
singleton column per non-auto field, in source order. -/
def buildInsertData (u k f h d c : String) (e : List ℚ) : List (List ColValue) :=
  [[ColValue.str u], [ColValue.str k], [ColValue.str f], [ColValue.str h],
   [ColValue.str d], [ColValue.str c], [ColValue.vec e]]

/-- Model of `collection.insert(data)`: the store matches the column list
against the non-auto fields of the fixed schema in declaration order,
assigns the auto `id`, and appends exactly one row. -/
def milvusInsert (col : CollectionData) (data : List (List ColValue)) :
    Except String CollectionData :=
  match data with
  | [[ColValue.str u], [ColValue.str k], [ColValue.str f], [ColValue.str h],
     [ColValue.str d], [ColValue.str c], [ColValue.vec e]] =>
    Except.ok { col with rows := col.rows ++ [⟨u, k, f, h, d, c, e⟩] }
  | _ => Except.error "insert data does not match the collection schema"

/-- Body of `MilvusClient.store_doc` before exception wrapping: not-loaded
guard, metadata extraction, `json.dumps` of headers, truthiness validation
of the six required inputs, then the single-row insert. -/
def store_doc_raw (st : ClientState) (doc : Document) (embedding : List ℚ) :
    Except String ClientState :=
  match st.sess with
  | none => Except.error notLoadedMsg
  | some name =>
    let user_id := doc.user_id
    let kb_id := doc.kb_id
    let file_id := doc.file_id
    let headers := jsonDumps (doc.headers.getD [])
    let doc_id := doc.doc_id
    let content := doc.page_content
    if truthyO user_id && truthyO kb_id && truthyO file_id && truthyO doc_id
        && !content.isEmpty && !embedding.isEmpty then
      match lookupCollection st.collections name with
      | none => Except.error ("collection not found: " ++ name)
      | some col =>
        match milvusInsert col (buildInsertData (user_id.getD "") (kb_id.getD "")
            (file_id.getD "") headers (doc_id.getD "") content embedding) with
        | Except.ok col2 =>
          Except.ok { st with collections := updateCollection st.collections name col2 }
        | Except.error e => Except.error e
    else Except.error missingFieldsMsg

/-- Model of `MilvusClient.store_doc`: the generic `except` handler wraps
every failure into `MilvusFailed("Failed to store document: ...")`; on
failure the state is unchanged (nothing was inserted). -/
def store_doc (st : ClientState) (doc : Document) (embedding : List ℚ) :
    Except String Unit × ClientState :=
  match store_doc_raw st doc embedding with
  | Except.ok st2 => (Except.ok (), st2)
  | Except.error e => (Except.error ("Failed to store document: " ++ e), st)

/-- Scalar field access used to evaluate filter expressions on a row. -/
def rowScalar (row : DocumentRow) : String → Option String
  | "user_id" => some row.user_id
  | "kb_id" => some row.kb_id
  | "file_id" => some row.file_id
  | "headers" => some row.headers
  | "doc_id" => some row.doc_id
  | "content" => some row.content
  | _ => none

/-- Squared L2 distance between two vectors (order-equivalent to the L2
metric, which is what result ranking depends on). -/
def l2sq (a b : List ℚ) : ℚ :=
  ((a.zip b).map fun p => (p.1 - p.2) * (p.1 - p.2)).sum

/-- Comparison of rows by distance of their embeddings to the query. -/
def distLe (q : List ℚ) (a b : DocumentRow) : Prop :=
  l2sq q a.embedding ≤ l2sq q b.embedding

instance (q : List ℚ) : DecidableRel (distLe q) :=
  fun a b => inferInstanceAs (Decidable (l2sq q a.embedding ≤ l2sq q b.embedding))

instance (q : List ℚ) : IsTotal DocumentRow (distLe q) :=
  ⟨fun _ _ => le_total _ _⟩

instance (q : List ℚ) : IsTrans DocumentRow (distLe q) :=
  ⟨fun _ _ _ h1 h2 => le_trans h1 h2⟩

/-- When the input starts with the four-character separator `" == "`,
return the remainder after it. -/
def sepHead : List Char → Option (List Char)
  | ' ' :: '=' :: '=' :: ' ' :: rest => some rest
  | _ => none

/-- Split at the first occurrence of the `" == "` separator, when the input
has one: the part before and the part after. -/
def splitFirst : List Char → Option (List Char × List Char)
  | [] => none
  | c :: rest =>
    match sepHead (c :: rest) with
    | some tail => some ([], tail)
    | none =>
      match splitFirst rest with
      | some (f, q) => some (c :: f, q)
      | none => none

/-- Model of the Milvus boolean filter expression language, restricted to
the single shape the client uses: `field == 'literal'`, with exactly one
`" == "` separator and the literal between outer single quotes. -/
def parseEqExpr (e : String) : Option (String × String) :=
  match splitFirst e.data with
  | none => none
  | some (f, q) =>
    if (splitFirst q).isSome then none
    else
      match q with
      | c :: rest =>
        if c = sq ∧ rest ≠ [] ∧ rest.getLast? = some sq then
          some (String.mk f, String.mk rest.dropLast)
        else none
      | [] => none

/-- Predicate semantics of a filter expression: the empty expression
matches every row; a parsable equality expression matches rows whose named
scalar field equals the literal; anything else is a malformed expression
(`none`). -/
def exprPred (expr : String) : Option (DocumentRow → Bool) :=
  if expr = "" then some fun _ => true
  else
    match parseEqExpr expr with
    | some (fld, lit) => some fun row => decide (rowScalar row fld = some lit)
    | none => none

/-- The search request `search_docs` assembles and forwards to
`self.sess.search(**search_params)`: query data (`[query_embedding]` when
the vector is truthy, `None` otherwise), the `embedding` anns field, the
fixed metric and nprobe, the result limit, the filter expression (empty
string when absent), and the output field list. -/
structure SearchRequest where
  data : Option (List (List ℚ))
  anns_field : String
  metric_type : String
  nprobe : Nat
  limit : Nat
  expr : String
  output_fields : List String
deriving DecidableEq

/-- Build the search request exactly as `search_docs` does. -/
def buildSearchRequest (qe : Option (List ℚ)) (fe : Option String) (lim : Nat) :
    SearchRequest :=
  { data :=
      match qe with
      | some q => if q.isEmpty then none else some [q]
      | none => none
    anns_field := "embedding"
    metric_type := search_params.metric_type
    nprobe := search_params.nprobe
    limit := lim
    expr :=
      match fe with
      | none => ""
      | some s => if s.isEmpty then "" else s
    output_fields := output_fields }

/-- Model of the server side of `collection.search`: filter the rows by the
expression, rank by ascending distance to each query vector under the L2
metric, and cap each per-query hit list at `limit`. With no query data the
similarity stage is skipped and the filtered rows are capped in stored
order. A malformed expression fails the whole call. -/
def milvusSearch (rows : List DocumentRow) (req : SearchRequest) :
    Except String (List (List DocumentRow)) :=
  match exprPred req.expr with
  | none => Except.error ("cannot parse expression: " ++ req.expr)
  | some pred =>
    let cand := rows.filter pred
    match req.data with
    | none => Except.ok [cand.take req.limit]
    | some qs =>
      Except.ok (qs.map fun q => (List.insertionSort (distLe q) cand).take req.limit)

/-- Hit rows of a `search_docs` call, flattened over the per-query groups
as by the nested `for hits in results: for hit in hits` loops, before the
per-hit record reconstruction. -/
def searchHits (st : ClientState) (qe : Option (List ℚ)) (fe : Option String) (lim : Nat) :
    Except String (List DocumentRow) :=
  match st.sess with
  | none => Except.error notLoadedMsg
  | some name =>
    match lookupCollection st.collections name with
    | none => Except.error ("collection not found: " ++ name)
    | some col =>
      if col.loaded then
        match milvusSearch col.rows (buildSearchRequest qe fe lim) with
        | Except.error e => Except.error e
        | Except.ok groups => Except.ok groups.flatten
      else Except.error ("collection not loaded into memory: " ++ name)

/-- Per-hit record reconstruction: read back all output fields and
`json.loads` the headers; a hit whose headers fail to deserialize aborts
the whole loop (the exception propagates). -/
def reconstructAll : List DocumentRow → Option (List RetrievedDoc)
  | [] => some []
  | row :: rest =>
    match jsonLoads row.headers, reconstructAll rest with
    | some h, some ds =>
      some (({ user_id := row.user_id, kb_id := row.kb_id, file_id := row.file_id,
               headers := h, doc_id := row.doc_id, content := row.content,
               embedding := row.embedding } : RetrievedDoc) :: ds)
    | _, _ => none

/-- Message for a headers value that `json.loads` rejects. -/
def headersDecodeMsg : String := "headers field is not valid JSON"

/-- Model of `MilvusClient.search_docs`: not-loaded guard, request
construction, server search, record reconstruction, all failures wrapped
into `MilvusFailed("Failed to search documents: ...")` by the generic
`except` handler. -/
def search_docs (st : ClientState) (qe : Option (List ℚ)) (fe : Option String) (lim : Nat) :
    Except String (List RetrievedDoc) :=
  match searchHits st qe fe lim with
  | Except.error e => Except.error ("Failed to search documents: " ++ e)
  | Except.ok hits =>
    match reconstructAll hits with
    | some docs => Except.ok docs
    | none => Except.error ("Failed to search documents: " ++ headersDecodeMsg)

/-- `search_docs` with the source's default `doc_limit` of 10. -/
def search_docs_default (st : ClientState) (qe : Option (List ℚ)) (fe : Option String) :
    Except String (List RetrievedDoc) :=
  search_docs st qe fe 10

instance {α β : Type} [DecidableEq α] [DecidableEq β] : DecidableEq (Except α β) :=
  fun a b =>
    match a, b with
    | Except.ok x, Except.ok y =>
      if h : x = y then isTrue (by rw [h])
      else isFalse (by intro hh; cases hh; exact h rfl)
    | Except.error x, Except.error y =>
      if h : x = y then isTrue (by rw [h])
      else isFalse (by intro hh; cases hh; exact h rfl)
    | Except.ok _, Except.error _ => isFalse (by intro hh; cases hh)
    | Except.error _, Except.ok _ => isFalse (by intro hh; cases hh)

/-- Single-quote character as a one-character string, for writing concrete
filter expressions. -/
def sqS : String := String.mk [sq]

/-- Updating a present key makes subsequent lookup return the new value. -/
theorem lookupCollection_updateCollection (l : List (String × CollectionData)) (name : String)
    (c c2 : CollectionData) (h : lookupCollection l name = some c) :
    lookupCollection (updateCollection l name c2) name = some c2 := by
  induction l with
  | nil => simp [lookupCollection] at h
  | cons p rest ih =>
    obtain ⟨n, cc⟩ := p
    by_cases hn : n = name
    · subst hn
      simp [lookupCollection, updateCollection]
    · simp only [lookupCollection, updateCollection, if_neg hn] at h ⊢
      exact ih h

/-- Concrete fixtures used by the witness theorems: a document, an empty
loaded collection, the state after storing the document, and an equality
filter on its user id. -/
def exDoc : Document :=
  ⟨"hello world", some "tenant_42", some "kb1", some "f1", some "d1", some [("h1", "v1")]⟩

/-- State after loading the fresh collection `tenant_42`. -/
def exLoaded : ClientState := load_collection_ ⟨[], none⟩ "tenant_42"

/-- State after storing `exDoc` with a one-dimensional embedding. -/
def exStored : ClientState := (store_doc exLoaded exDoc [1]).2

/-- Filter expression `user_id == 'tenant_42'`. -/
def exFilter : String := "user_id == " ++ sqS ++ "tenant_42" ++ sqS

/-- The record `search_docs` reconstructs for the stored fixture row. -/
def exRec : RetrievedDoc :=
  ⟨"tenant_42", "kb1", "f1", [("h1", "v1")], "d1", "hello world", [1]⟩

/-- C3: with no loaded collection (`sess` is `None`), both `store_doc` and
`search_docs` fail with the wrapped not-loaded error, no insert happens
(the state is returned unchanged), and no query is issued. -/
theorem store_search_require_loaded (st : ClientState) (doc : Document) (emb : List ℚ)
    (qe : Option (List ℚ)) (fe : Option String) (lim : Nat) (hs : st.sess = none) :
    store_doc st doc emb =
      (Except.error ("Failed to store document: " ++ notLoadedMsg), st) ∧
    search_docs st qe fe lim =
      Except.error ("Failed to search documents: " ++ notLoadedMsg) := by
  constructor
  · unfold store_doc store_doc_raw
    rw [hs]
  · unfold search_docs searchHits
    rw [hs]

/-- Witness for C3 at a concrete fresh client state. -/
theorem store_search_require_loaded_witness :
    store_doc ⟨[], none⟩ exDoc [1] =
      (Except.error ("Failed to store document: " ++ notLoadedMsg), ⟨[], none⟩) ∧
    search_docs ⟨[], none⟩ none none 10 =
      Except.error ("Failed to search documents: " ++ notLoadedMsg) :=
  store_search_require_loaded ⟨[], none⟩ exDoc [1] none none 10 rfl

/-- C2: when any of the six validated inputs is empty or absent (falsy),
`store_doc` fails with the wrapped validation error before any insert: the
returned state is the input state unchanged. -/
theorem store_doc_validation (st : ClientState) (name : String) (doc : Document)
    (emb : List ℚ) (hs : st.sess = some name)
    (hbad : truthyO doc.user_id = false ∨ truthyO doc.kb_id = false ∨
      truthyO doc.file_id = false ∨ truthyO doc.doc_id = false ∨
      doc.page_content.isEmpty = true ∨ emb.isEmpty = true) :
    store_doc st doc emb =
      (Except.error ("Failed to store document: " ++ missingFieldsMsg), st) := by
  have hguard : (truthyO doc.user_id && truthyO doc.kb_id && truthyO doc.file_id &&
      truthyO doc.doc_id && !doc.page_content.isEmpty && !emb.isEmpty) = false := by
    rcases hbad with h | h | h | h | h | h <;> simp [h]
  unfold store_doc store_doc_raw
  rw [hs]
  simp only [hguard, Bool.false_eq_true, if_false]

/-- Witness for C2: a document with an absent `doc_id` on a loaded state. -/
theorem store_doc_validation_witness :
    truthyO (⟨"c", some "u", some "k", some "f", none, none⟩ : Document).doc_id = false ∧
    store_doc ⟨[("u", ⟨fields, none, [], true⟩)], some "u"⟩
        ⟨"c", some "u", some "k", some "f", none, none⟩ [1] =
      (Except.error ("Failed to store document: " ++ missingFieldsMsg),
        ⟨[("u", ⟨fields, none, [], true⟩)], some "u"⟩) :=
  ⟨rfl, store_doc_validation _ "u" _ [1] rfl (Or.inr (Or.inr (Or.inr (Or.inl rfl))))⟩

/-- C4: for a fresh name, `load_collection_` creates a collection with the
fixed eight-entry schema and the IVF_FLAT/L2/nlist-1024 index on the
embedding field and leaves it loaded; for an existing name it attaches
as-is (only the loaded flag changes); in both cases the collection is the
active session. The last conjuncts pin the schema and index constants to
their literal values. -/
theorem load_collection_spec (st : ClientState) (name : String) :
    (lookupCollection st.collections name = none →
      lookupCollection (load_collection_ st name).collections name =
        some ⟨fields, some ("embedding", create_params), [], true⟩ ∧
      (load_collection_ st name).sess = some name) ∧
    (∀ c, lookupCollection st.collections name = some c →
      lookupCollection (load_collection_ st name).collections name =
        some { c with loaded := true } ∧
      (load_collection_ st name).sess = some name) ∧
    fields =
      [⟨"id", DataType.INT64, true, true, none, none⟩,
       ⟨"user_id", DataType.VARCHAR, false, false, some 64, none⟩,
       ⟨"kb_id", DataType.VARCHAR, false, false, some 64, none⟩,
       ⟨"file_id", DataType.VARCHAR, false, false, some 64, none⟩,
       ⟨"headers", DataType.VARCHAR, false, false, some 256, none⟩,
       ⟨"doc_id", DataType.VARCHAR, false, false, some 64, none⟩,
       ⟨"content", DataType.VARCHAR, false, false, some 4000, none⟩,
       ⟨"embedding", DataType.FLOAT_VECTOR, false, false, none, some 768⟩] ∧
    create_params = ⟨"L2", "IVF_FLAT", 1024⟩ := by
  refine ⟨fun hnone => ?_, fun c hsome => ?_, rfl, rfl⟩
  · unfold load_collection_
    rw [hnone]
    simp [lookupCollection, CollectionData.create_index, CollectionData.load]
  · unfold load_collection_
    rw [hsome]
    exact ⟨lookupCollection_updateCollection st.collections name c _ hsome, rfl⟩

/-- Witness for C4: creation at a fresh state and attach at a state where
the name exists. -/
theorem load_collection_spec_witness :
    (lookupCollection (load_collection_ ⟨[], none⟩ "u").collections "u" =
      some ⟨fields, some ("embedding", create_params), [], true⟩ ∧
      (load_collection_ ⟨[], none⟩ "u").sess = some "u") ∧
    (lookupCollection (load_collection_ ⟨[("u", ⟨fields, none, [], false⟩)], none⟩ "u").collections
        "u" = some { (⟨fields, none, [], false⟩ : CollectionData) with loaded := true } ∧
      (load_collection_ ⟨[("u", ⟨fields, none, [], false⟩)], none⟩ "u").sess = some "u") :=
  ⟨(load_collection_spec ⟨[], none⟩ "u").1 rfl,
   (load_collection_spec ⟨[("u", ⟨fields, none, [], false⟩)], none⟩ "u").2.1
     ⟨fields, none, [], false⟩ (by simp [lookupCollection])⟩

/-- C10: the insert payload assembled by `store_doc` pairs its seven
singleton columns with the schema's non-auto fields in declaration order,
supplies no value for the auto `id` column, and the inserted row stores
each value under its declared field. -/
theorem store_doc_insert_order (st : ClientState) (name : String) (col : CollectionData)
    (u k f d cont : String) (hm : List (String × String)) (emb : List ℚ)
    (hs : st.sess = some name) (hcol : lookupCollection st.collections name = some col)
    (hu : u.isEmpty = false) (hk : k.isEmpty = false) (hf : f.isEmpty = false)
    (hd : d.isEmpty = false) (hc : cont.isEmpty = false) (he : emb.isEmpty = false) :
    ((fields.filter fun fs => !fs.auto_id).map FieldSchema.name).zip
        (buildInsertData u k f (jsonDumps hm) d cont emb) =
      [("user_id", [ColValue.str u]), ("kb_id", [ColValue.str k]),
       ("file_id", [ColValue.str f]), ("headers", [ColValue.str (jsonDumps hm)]),
       ("doc_id", [ColValue.str d]), ("content", [ColValue.str cont]),
       ("embedding", [ColValue.vec emb])] ∧
    (fields.filter fun fs => fs.auto_id).map FieldSchema.name = ["id"] ∧
    store_doc st ⟨cont, some u, some k, some f, some d, some hm⟩ emb =
      (Except.ok (), ⟨updateCollection st.collections name
        ⟨col.schema, col.index, col.rows ++ [⟨u, k, f, jsonDumps hm, d, cont, emb⟩],
          col.loaded⟩, st.sess⟩) := by
  refine ⟨rfl, rfl, ?_⟩
  unfold store_doc store_doc_raw
  rw [hs]
  simp only [truthyO, hu, hk, hf, hd, hc, he, Bool.not_false, Bool.and_self, if_true]
  rw [hcol]
  rfl

/-- Witness for C10 at the concrete loaded fixture state. -/
theorem store_doc_insert_order_witness :
    store_doc exLoaded exDoc [1] =
      (Except.ok (), ⟨updateCollection exLoaded.collections "tenant_42"
        ⟨fields, some ("embedding", create_params),
          [] ++ [⟨"tenant_42", "kb1", "f1", jsonDumps [("h1", "v1")],
            "d1", "hello world", [1]⟩], true⟩, exLoaded.sess⟩) :=
  (store_doc_insert_order exLoaded "tenant_42" ⟨fields, some ("embedding", create_params), [], true⟩
    "tenant_42" "kb1" "f1" "d1" "hello world" [("h1", "v1")] [1]
    rfl (by simp [exLoaded, load_collection_, lookupCollection, CollectionData.create_index,
      CollectionData.load])
    rfl rfl rfl rfl rfl rfl).2.2

/-- C8: with an absent or empty filter expression the client forwards the
empty-string expression to the store and applies no filtering of its own
(the empty expression denotes the match-all predicate in the model). -/
theorem search_empty_filter_forwarded (qe : Option (List ℚ)) (fe : Option String) (lim : Nat)
    (h : fe = none ∨ fe = some "") :
    (buildSearchRequest qe fe lim).expr = "" ∧
    exprPred (buildSearchRequest qe fe lim).expr = some (fun _ => true) := by
  have he : (buildSearchRequest qe fe lim).expr = "" := by
    rcases h with rfl | rfl
    · rfl
    · rfl
  exact ⟨he, by rw [he]; rfl⟩

/-- Witness for C8 with no filter argument. -/
theorem search_empty_filter_forwarded_witness :
    (buildSearchRequest none none 10).expr = "" ∧
    exprPred (buildSearchRequest none none 10).expr = some (fun _ => true) :=
  search_empty_filter_forwarded none none 10 (Or.inl rfl)

/-- C9: with no query embedding the forwarded query data is `None` and the
store applies no vector-similarity stage: the result is the filtered rows
capped at the limit, depending on the filter expression alone. -/
theorem search_absent_vector (fe : Option String) (lim : Nat) :
    (buildSearchRequest none fe lim).data = none ∧
    (∀ rows : List DocumentRow,
      milvusSearch rows (buildSearchRequest none fe lim) =
        match exprPred (buildSearchRequest none fe lim).expr with
        | none => Except.error ("cannot parse expression: " ++
            (buildSearchRequest none fe lim).expr)
        | some pred => Except.ok [(rows.filter pred).take lim]) := by
  refine ⟨rfl, fun rows => ?_⟩
  unfold milvusSearch
  cases hp : exprPred (buildSearchRequest none fe lim).expr with
  | none => rfl
  | some pred => rfl

/-- Hits of a search through a client-built request form a single group of
at most `lim` rows. -/
theorem milvusSearch_flatten_length (rows : List DocumentRow) (qe : Option (List ℚ))
    (fe : Option String) (lim : Nat) (groups : List (List DocumentRow))
    (h : milvusSearch rows (buildSearchRequest qe fe lim) = Except.ok groups) :
    groups.flatten.length ≤ lim := by
  unfold milvusSearch at h
  cases hp : exprPred (buildSearchRequest qe fe lim).expr with
  | none => rw [hp] at h; cases h
  | some pred =>
    rw [hp] at h
    simp only at h
    have hlim : (buildSearchRequest qe fe lim).limit = lim := rfl
    rcases qe with _ | q
    · rw [show (buildSearchRequest none fe lim).data = none from rfl] at h
      simp only at h
      cases h
      simp [hlim, List.length_take]
    · by_cases hq : q.isEmpty
      · rw [show (buildSearchRequest (some q) fe lim).data = none from by
          simp [buildSearchRequest, hq]] at h
        simp only at h
        cases h
        simp [hlim, List.length_take]
      · rw [show (buildSearchRequest (some q) fe lim).data = some [q] from by
          simp [buildSearchRequest, hq]] at h
        simp only at h
        cases h
        simp [hlim, List.length_take]

/-- Record reconstruction preserves the number of hits. -/
theorem reconstructAll_length (rows : List DocumentRow) (docs : List RetrievedDoc)
    (h : reconstructAll rows = some docs) : docs.length = rows.length := by
  induction rows generalizing docs with
  | nil =>
    unfold reconstructAll at h
    cases h
    rfl
  | cons row rest ih =>
    unfold reconstructAll at h
    cases hj : jsonLoads row.headers with
    | none => rw [hj] at h; cases h
    | some hd =>
      rw [hj] at h
      cases hr : reconstructAll rest with
      | none => rw [hr] at h; cases h
      | some ds =>
        rw [hr] at h
        cases h
        simp [ih ds hr]

/-- C5: a successful `search_docs` call returns at most `lim` records, and
the caller-facing default limit is 10. -/
theorem search_docs_limit (st : ClientState) (qe : Option (List ℚ)) (fe : Option String)
    (lim : Nat) (docs : List RetrievedDoc)
    (h : search_docs st qe fe lim = Except.ok docs) :
    docs.length ≤ lim ∧ search_docs_default st qe fe = search_docs st qe fe 10 := by
  refine ⟨?_, rfl⟩
  unfold search_docs at h
  cases hh : searchHits st qe fe lim with
  | error e => rw [hh] at h; cases h
  | ok hits =>
    rw [hh] at h
    simp only at h
    cases hr : reconstructAll hits with
    | none => rw [hr] at h; cases h
    | some ds =>
      rw [hr] at h
      cases h
      have hlen := reconstructAll_length _ _ hr
      unfold searchHits at hh
      cases hs : st.sess with
      | none => rw [hs] at hh; cases hh
      | some name =>
        rw [hs] at hh
        simp only at hh
        cases hc : lookupCollection st.collections name with
        | none => rw [hc] at hh; cases hh
        | some col =>
          rw [hc] at hh
          simp only at hh
          by_cases hl : col.loaded
          · rw [if_pos hl] at hh
            cases hm : milvusSearch col.rows (buildSearchRequest qe fe lim) with
            | error e => rw [hm] at hh; cases hh
            | ok groups =>
              rw [hm] at hh
              cases hh
              rw [hlen]
              exact milvusSearch_flatten_length col.rows qe fe lim groups hm
          · rw [if_neg hl] at hh; cases hh

/-- Witness for C5 at the stored fixture: the search succeeds with one
record. -/
theorem search_docs_limit_witness :
    ([exRec] : List RetrievedDoc).length ≤ 10 ∧
    search_docs_default exStored (some [1]) (some exFilter) =
      search_docs exStored (some [1]) (some exFilter) 10 :=
  search_docs_limit exStored (some [1]) (some exFilter) 10 [exRec] (by decide)

/-- A successful `search_docs` call decomposes into successful hits and a
successful reconstruction. -/
theorem search_docs_ok_elim (st : ClientState) (qe : Option (List ℚ)) (fe : Option String)
    (lim : Nat) (docs : List RetrievedDoc) (h : search_docs st qe fe lim = Except.ok docs) :
    ∃ hits, searchHits st qe fe lim = Except.ok hits ∧ reconstructAll hits = some docs := by
  unfold search_docs at h
  cases hh : searchHits st qe fe lim with
  | error e => rw [hh] at h; cases h
  | ok hits =>
    rw [hh] at h
    simp only at h
    cases hr : reconstructAll hits with
    | none => rw [hr] at h; cases h
    | some ds =>
      rw [hr] at h
      cases h
      exact ⟨hits, rfl, hr⟩

/-- Successful hits decompose into the session, collection, and server
search result. -/
theorem searchHits_ok_elim (st : ClientState) (qe : Option (List ℚ)) (fe : Option String)
    (lim : Nat) (hits : List DocumentRow) (h : searchHits st qe fe lim = Except.ok hits) :
    ∃ name col groups, st.sess = some name ∧
      lookupCollection st.collections name = some col ∧ col.loaded = true ∧
      milvusSearch col.rows (buildSearchRequest qe fe lim) = Except.ok groups ∧
      hits = groups.flatten := by
  unfold searchHits at h
  cases hs : st.sess with
  | none => rw [hs] at h; cases h
  | some name =>
    rw [hs] at h
    simp only at h
    cases hc : lookupCollection st.collections name with
    | none => rw [hc] at h; cases h
    | some col =>
      rw [hc] at h
      simp only at h
      by_cases hl : col.loaded
      · rw [if_pos hl] at h
        cases hm : milvusSearch col.rows (buildSearchRequest qe fe lim) with
        | error e => rw [hm] at h; cases h
        | ok groups =>
          rw [hm] at h
          cases h
          exact ⟨name, col, groups, rfl, hc, hl, hm, rfl⟩
      · rw [if_neg hl] at h; cases h

/-- Correspondence between a hit row and the record reconstructed from it:
every scalar field is read back, `headers` is deserialized into the
structured map, and the embedding is read back. -/
def recMatches (row : DocumentRow) (d : RetrievedDoc) : Prop :=
  d.user_id = row.user_id ∧ d.kb_id = row.kb_id ∧ d.file_id = row.file_id ∧
  jsonLoads row.headers = some d.headers ∧ d.doc_id = row.doc_id ∧
  d.content = row.content ∧ d.embedding = row.embedding

/-- Successful reconstruction relates hits and records pointwise. -/
theorem reconstructAll_forall2 (rows : List DocumentRow) (docs : List RetrievedDoc)
    (h : reconstructAll rows = some docs) : List.Forall₂ recMatches rows docs := by
  induction rows generalizing docs with
  | nil =>
    unfold reconstructAll at h
    cases h
    exact List.Forall₂.nil
  | cons row rest ih =>
    unfold reconstructAll at h
    cases hj : jsonLoads row.headers with
    | none => rw [hj] at h; cases h
    | some hd =>
      rw [hj] at h
      cases hr : reconstructAll rest with
      | none => rw [hr] at h; cases h
      | some ds =>
        rw [hr] at h
        cases h
        exact List.Forall₂.cons ⟨rfl, rfl, rfl, hj, rfl, rfl, rfl⟩ (ih ds hr)

/-- A hit whose headers do not deserialize aborts the whole
reconstruction. -/
theorem reconstructAll_none (rows : List DocumentRow)
    (h : ∃ row ∈ rows, jsonLoads row.headers = none) : reconstructAll rows = none := by
  induction rows with
  | nil => obtain ⟨row, hmem, _⟩ := h; cases hmem
  | cons r rest ih =>
    obtain ⟨row, hmem, hbad⟩ := h
    unfold reconstructAll
    rcases List.mem_cons.mp hmem with rfl | hmem2
    · rw [hbad]
    · rw [ih ⟨row, hmem2, hbad⟩]
      cases jsonLoads r.headers <;> rfl

/-- C6: every record of a successful search has all seven fields populated
from its hit row with `headers` deserialized into a structured map
(pointwise `Forall₂` correspondence with the hits), and if any hit's
headers fail to deserialize the whole call fails: no partial record and no
partial list is ever returned. -/
theorem search_docs_records_complete (st : ClientState) (qe : Option (List ℚ))
    (fe : Option String) (lim : Nat) :
    (∀ docs, search_docs st qe fe lim = Except.ok docs →
      ∃ hits, searchHits st qe fe lim = Except.ok hits ∧ List.Forall₂ recMatches hits docs) ∧
    (∀ hits, searchHits st qe fe lim = Except.ok hits →
      (∃ row ∈ hits, jsonLoads row.headers = none) →
      search_docs st qe fe lim =
        Except.error ("Failed to search documents: " ++ headersDecodeMsg)) := by
  constructor
  · intro docs h
    obtain ⟨hits, hh, hr⟩ := search_docs_ok_elim st qe fe lim docs h
    exact ⟨hits, hh, reconstructAll_forall2 hits docs hr⟩
  · intro hits hh hbad
    unfold search_docs
    rw [hh]
    simp only
    rw [reconstructAll_none hits hbad]

/-- Row whose headers column does not hold valid JSON, for the C6
failure-path witness. -/
def exBadRow : DocumentRow := ⟨"u2", "k", "f", "bad", "d", "c", [1]⟩

/-- State whose active collection holds `exBadRow`. -/
def exBadState : ClientState :=
  ⟨[("u2", ⟨fields, some ("embedding", create_params), [exBadRow], true⟩)], some "u2"⟩

/-- Witness for C6: a successful search with fully populated records, and a
search over a bad-headers row failing as a whole. -/
theorem search_docs_records_complete_witness :
    (∃ hits, searchHits exStored (some [1]) (some exFilter) 10 = Except.ok hits ∧
      List.Forall₂ recMatches hits [exRec]) ∧
    search_docs exBadState none none 10 =
      Except.error ("Failed to search documents: " ++ headersDecodeMsg) :=
  ⟨(search_docs_records_complete exStored (some [1]) (some exFilter) 10).1 [exRec] (by decide),
   (search_docs_records_complete exBadState none none 10).2 [exBadRow] (by decide)
     ⟨exBadRow, by simp, by decide⟩⟩

/-- Squared distance to the empty query vector is zero. -/
theorem l2sq_nil (b : List ℚ) : l2sq [] b = 0 := by
  simp [l2sq]

/-- A relation that holds everywhere is pairwise on every list. -/
theorem pairwiseOfAll {α : Type} (R : α → α → Prop) (h : ∀ a b, R a b) :
    ∀ l : List α, l.Pairwise R
  | [] => List.Pairwise.nil
  | a :: l => List.Pairwise.cons (fun b _ => h a b) (pairwiseOfAll R h l)

/-- Reconstruction reads the embedding back unchanged, hit by hit. -/
theorem reconstructAll_embeddings (rows : List DocumentRow) (docs : List RetrievedDoc)
    (h : reconstructAll rows = some docs) :
    docs.map RetrievedDoc.embedding = rows.map DocumentRow.embedding := by
  induction rows generalizing docs with
  | nil =>
    unfold reconstructAll at h
    cases h
    rfl
  | cons row rest ih =>
    unfold reconstructAll at h
    cases hj : jsonLoads row.headers with
    | none => rw [hj] at h; cases h
    | some hd =>
      rw [hj] at h
      cases hr : reconstructAll rest with
      | none => rw [hr] at h; cases h
      | some ds =>
        rw [hr] at h
        cases h
        simp [ih ds hr]

/-- Shape of a server search for a present query vector: one hit group,
filtered, distance-sorted when the vector is non-empty, capped at the
limit. -/
theorem milvusSearch_some_elim (rows : List DocumentRow) (q : List ℚ) (fe : Option String)
    (lim : Nat) (groups : List (List DocumentRow))
    (h : milvusSearch rows (buildSearchRequest (some q) fe lim) = Except.ok groups) :
    ∃ pred, exprPred (buildSearchRequest (some q) fe lim).expr = some pred ∧
      ((q.isEmpty = true ∧ groups = [(rows.filter pred).take lim]) ∨
       (q.isEmpty = false ∧
        groups = [(List.insertionSort (distLe q) (rows.filter pred)).take lim])) := by
  unfold milvusSearch at h
  cases hp : exprPred (buildSearchRequest (some q) fe lim).expr with
  | none => rw [hp] at h; cases h
  | some pred =>
    rw [hp] at h
    simp only at h
    refine ⟨pred, rfl, ?_⟩
    by_cases hq : q.isEmpty
    · left
      rw [show (buildSearchRequest (some q) fe lim).data = none from by
        simp [buildSearchRequest, hq]] at h
      simp only at h
      cases h
      exact ⟨hq, rfl⟩
    · right
      rw [show (buildSearchRequest (some q) fe lim).data = some [q] from by
        simp [buildSearchRequest, hq]] at h
      simp only at h
      cases h
      exact ⟨by simp [hq], rfl⟩

/-- C7: the records of a successful search with a query vector are ordered
by ascending (squared) L2 distance of their embeddings to the query: each
result is at least as close as the next. -/
theorem search_docs_sorted_by_distance (st : ClientState) (q : List ℚ) (fe : Option String)
    (lim : Nat) (docs : List RetrievedDoc)
    (h : search_docs st (some q) fe lim = Except.ok docs) :
    List.Sorted (· ≤ ·) (docs.map fun d => l2sq q d.embedding) := by
  obtain ⟨hits, hh, hr⟩ := search_docs_ok_elim st (some q) fe lim docs h
  obtain ⟨name, col, groups, _, _, _, hm, hflat⟩ := searchHits_ok_elim st (some q) fe lim hits hh
  obtain ⟨pred, _, hcase⟩ := milvusSearch_some_elim col.rows q fe lim groups hm
  have hemb := reconstructAll_embeddings hits docs hr
  have hmap : (docs.map fun d => l2sq q d.embedding) =
      hits.map fun rrow => l2sq q rrow.embedding := by
    have h1 : (docs.map fun d => l2sq q d.embedding) =
        (docs.map RetrievedDoc.embedding).map fun e => l2sq q e := by
      rw [List.map_map]
      rfl
    have h2 : (hits.map fun rrow => l2sq q rrow.embedding) =
        (hits.map DocumentRow.embedding).map fun e => l2sq q e := by
      rw [List.map_map]
      rfl
    rw [h1, h2, hemb]
  rw [hmap]
  have hsorted : hits.Pairwise (distLe q) := by
    rcases hcase with ⟨hq, hg⟩ | ⟨hq, hg⟩
    · have hqnil : q = [] := by
        cases q with
        | nil => rfl
        | cons a l => simp at hq
      subst hqnil
      exact pairwiseOfAll (distLe []) (fun a b => by
        unfold distLe
        rw [l2sq_nil, l2sq_nil]) hits
    · subst hg
      rw [hflat]
      simp only [List.flatten, List.append_nil]
      have hs1 : List.Sorted (distLe q)
          (List.insertionSort (distLe q) (col.rows.filter pred)) :=
        List.sorted_insertionSort (distLe q) (col.rows.filter pred)
      exact List.Pairwise.sublist (List.take_sublist lim _) hs1
  exact (List.pairwise_map).mpr hsorted

/-- Witness for C7 at the stored fixture search. -/
theorem search_docs_sorted_by_distance_witness :
    List.Sorted (· ≤ ·) (([exRec] : List RetrievedDoc).map fun d => l2sq [1] d.embedding) :=
  search_docs_sorted_by_distance exStored [1] (some exFilter) 10 [exRec] (by decide)

/-- One-collection client states expose the server search result directly. -/
theorem searchHits_single (name : String) (col : CollectionData) (qe : Option (List ℚ))
    (fe : Option String) (lim : Nat) (hl : col.loaded = true) :
    searchHits ⟨[(name, col)], some name⟩ qe fe lim =
      match milvusSearch col.rows (buildSearchRequest qe fe lim) with
      | Except.error e => Except.error e
      | Except.ok groups => Except.ok groups.flatten := by
  unfold searchHits
  simp [lookupCollection, hl]

/-- A server search over a single matching row through a client-built
request returns exactly that row. -/
theorem milvusSearch_single (row : DocumentRow) (pr : DocumentRow → Bool)
    (req : SearchRequest) (hp : exprPred req.expr = some pr) (hpr : pr row = true)
    (hdata : req.data = none ∨ ∃ qv, req.data = some [qv]) (hlim : 1 ≤ req.limit) :
    milvusSearch [row] req = Except.ok [[row]] := by
  unfold milvusSearch
  rw [hp]
  simp only
  have hcand : List.filter pr [row] = [row] := by simp [hpr]
  rcases hdata with hd | ⟨qv, hd⟩
  · rw [hd, hcand, List.take_of_length_le (by simpa using hlim)]
  · rw [hd, hcand]
    simp only [List.map]
    rw [show List.insertionSort (distLe qv) [row] = [row] from rfl,
      List.take_of_length_le (by simpa using hlim)]

/-- C1: storing a document with all required fields non-empty into its
freshly loaded collection and then searching with an equality filter on its
`user_id` (any query vector, default limit) returns exactly one record
whose fields equal the stored input; in particular the headers map
round-trips through serialization unchanged as a structured map. -/
theorem store_then_search_roundtrip (u k f d cont : String) (hm : List (String × String))
    (emb : List ℚ) (fe : String) (qe : Option (List ℚ))
    (hu : u.isEmpty = false) (hk : k.isEmpty = false) (hf : f.isEmpty = false)
    (hd : d.isEmpty = false) (hc : cont.isEmpty = false) (he : emb.isEmpty = false)
    (hfe : parseEqExpr fe = some ("user_id", u)) :
    (store_doc (load_collection_ ⟨[], none⟩ u)
      ⟨cont, some u, some k, some f, some d, some hm⟩ emb).1 = Except.ok () ∧
    search_docs_default (store_doc (load_collection_ ⟨[], none⟩ u)
      ⟨cont, some u, some k, some f, some d, some hm⟩ emb).2 qe (some fe) =
      Except.ok [⟨u, k, f, hm, d, cont, emb⟩] := by
  have hload : load_collection_ ⟨[], none⟩ u =
      ⟨[(u, ⟨fields, some ("embedding", create_params), [], true⟩)], some u⟩ := rfl
  have hstore : store_doc ⟨[(u, ⟨fields, some ("embedding", create_params), [], true⟩)], some u⟩
      ⟨cont, some u, some k, some f, some d, some hm⟩ emb =
      (Except.ok (), ⟨[(u, ⟨fields, some ("embedding", create_params),
        [⟨u, k, f, jsonDumps hm, d, cont, emb⟩], true⟩)], some u⟩) := by
    unfold store_doc store_doc_raw
    simp [truthyO, hu, hk, hf, hd, hc, he, lookupCollection, milvusInsert, buildInsertData,
      updateCollection]
  have hpred : ∃ pr, exprPred ((buildSearchRequest qe (some fe) 10).expr) = some pr ∧
      pr ⟨u, k, f, jsonDumps hm, d, cont, emb⟩ = true := by
    by_cases hfee : fe.isEmpty
    · refine ⟨fun _ => true, ?_, rfl⟩
      rw [show (buildSearchRequest qe (some fe) 10).expr = "" from by
        simp [buildSearchRequest, hfee]]
      rfl
    · have hne : ¬ (fe = "") := by
        intro h0
        rw [h0] at hfee
        rw [show ("" : String).isEmpty = true from by decide] at hfee
        exact hfee rfl
      refine ⟨fun rrow => decide (rowScalar rrow "user_id" = some u), ?_, ?_⟩
      · rw [show (buildSearchRequest qe (some fe) 10).expr = fe from by
          simp [buildSearchRequest, hfee]]
        unfold exprPred
        rw [if_neg hne, hfe]
      · simp [rowScalar]
  obtain ⟨pr, hp, hpr⟩ := hpred
  have hdata : (buildSearchRequest qe (some fe) 10).data = none ∨
      ∃ qv, (buildSearchRequest qe (some fe) 10).data = some [qv] := by
    rcases qe with _ | qv
    · exact Or.inl rfl
    · by_cases hqv : qv.isEmpty
      · exact Or.inl (by simp [buildSearchRequest, hqv])
      · exact Or.inr ⟨qv, by simp [buildSearchRequest, hqv]⟩
  have hms := milvusSearch_single ⟨u, k, f, jsonDumps hm, d, cont, emb⟩ pr
    (buildSearchRequest qe (some fe) 10) hp hpr hdata (by
      rw [show (buildSearchRequest qe (some fe) 10).limit = 10 from rfl]
      omega)
  have hrec : reconstructAll [⟨u, k, f, jsonDumps hm, d, cont, emb⟩] =
      some [⟨u, k, f, hm, d, cont, emb⟩] := by
    unfold reconstructAll
    rw [show (⟨u, k, f, jsonDumps hm, d, cont, emb⟩ : DocumentRow).headers = jsonDumps hm
      from rfl, jsonLoads_jsonDumps]
    rfl
  rw [hload, hstore]
  refine ⟨rfl, ?_⟩
  show search_docs ⟨[(u, ⟨fields, some ("embedding", create_params),
    [⟨u, k, f, jsonDumps hm, d, cont, emb⟩], true⟩)], some u⟩ qe (some fe) 10 = _
  unfold search_docs
  rw [searchHits_single u ⟨fields, some ("embedding", create_params),
    [⟨u, k, f, jsonDumps hm, d, cont, emb⟩], true⟩ qe (some fe) 10 rfl]
  rw [show (⟨fields, some ("embedding", create_params),
    [⟨u, k, f, jsonDumps hm, d, cont, emb⟩], true⟩ : CollectionData).rows =
    [⟨u, k, f, jsonDumps hm, d, cont, emb⟩] from rfl, hms]
  simp only [List.flatten, List.append_nil]
  rw [hrec]

/-- Witness for C1 at the concrete fixture document. -/
theorem store_then_search_roundtrip_witness :
    (store_doc (load_collection_ ⟨[], none⟩ "tenant_42") exDoc [1]).1 = Except.ok () ∧
    search_docs_default (store_doc (load_collection_ ⟨[], none⟩ "tenant_42") exDoc [1]).2
      (some [1]) (some exFilter) = Except.ok [exRec] :=
  store_then_search_roundtrip "tenant_42" "kb1" "f1" "d1" "hello world" [("h1", "v1")]
    [1] exFilter (some [1]) rfl rfl rfl rfl rfl rfl (by decide)

end Milvus
